import Mathlib

/-!
Verification of the jan-dhan claim-validation core against its design
specification.  The two subsystems with real invariants are embedded
shallowly here:

* `state.js`      — the system-state singleton (status / budget / tx count);
* `ledger.js`     — the hash-linked append-only ledger with a file-level digest;
* `validator.js`  — the 5-gate sequential validation pipeline.

Strings are modelled as `List Char` (`Str`), so that the JavaScript string
operations used by the source (`split`, `trim`, `toLowerCase`, `padStart`,
template concatenation) become executable Lean functions we can reason about
by induction.  The SHA-256 digest is modelled as an abstract parameter
`H : Str → Str`; theorems that need collision-freeness assume `H` injective,
and theorems that need the digest to be a hex-like word assume its output is
free of separators and whitespace — both properties of the real digest.
File-system effects are modelled by explicit state records; a raised
exception from a durable write is modelled by an `Option` result.
-/

namespace JanDhan

abbrev Str := List Char

/-- JS `s.trim()` : drop leading and trailing whitespace. -/
def trimStr (s : Str) : Str :=
  ((s.dropWhile Char.isWhitespace).reverse.dropWhile Char.isWhitespace).reverse

/-- JS `s.split(sep)` for a one-character separator. -/
def splitOnChar (sep : Char) : Str → List Str
  | [] => [[]]
  | c :: cs =>
    match splitOnChar sep cs with
    | [] => [[]]
    | r :: rs => if c = sep then [] :: r :: rs else (c :: r) :: rs

/-- JS `s.toLowerCase()` (ASCII-faithful). -/
def lowerStr (s : Str) : Str := s.map Char.toLower

/-- JS `s.padStart(12, '0')` — `registry.hashCitizenId` normalisation. -/
def padStart12 (s : Str) : Str := List.replicate (12 - s.length) '0' ++ s

/-- JS `String(n)` for an integer amount. -/
def intStr (n : Int) : Str := (toString n).data

/-- Whether `p` starts `s`. -/
def leadsWith : Str → Str → Bool
  | [], _ => true
  | _ :: _, [] => false
  | a :: as, b :: bs => a = b && leadsWith as bs

/-- Whether `p` occurs contiguously inside `s`. -/
def occursIn (p : Str) : Str → Bool
  | [] => leadsWith p []
  | c :: rest => leadsWith p (c :: rest) || occursIn p rest

/-! ### state.js — the system-state singleton -/

inductive Status
  | active
  | paused
  | frozen
deriving DecidableEq

structure SysState where
  status : Status
  budget : Int
  transactionCount : Nat
deriving DecidableEq

/-- `pause()` — `active -> paused`, otherwise no-op. -/
def pause (s : SysState) : SysState :=
  if s.status = .active then { s with status := .paused } else s

/-- `resume()` — `paused -> active`, otherwise no-op (cannot leave `frozen`). -/
def resume (s : SysState) : SysState :=
  if s.status = .paused then { s with status := .active } else s

/-- `freeze()` — unconditional transition to `frozen`. -/
def freeze (s : SysState) : SysState := { s with status := .frozen }

/-- `deduct(amount)` — subtract, clamp at zero, auto-freeze on reaching zero. -/
def deduct (amount : Int) (s : SysState) : SysState :=
  let b := s.budget - amount
  if b ≤ 0 then freeze { s with budget := 0 } else { s with budget := b }

/-- `incrTx()` — increment the approved-transaction counter. -/
def incrTx (s : SysState) : SysState :=
  { s with transactionCount := s.transactionCount + 1 }

/-! ### ledger.js — hash-linked ledger over an explicit disk state -/

/-- `'0'.repeat(64)` — the genesis / empty-ledger sentinel hash. -/
def GENESIS : Str := List.replicate 64 '0'

/-- On-disk state: `ledger.txt` contents and the digest stored in
`ledger_meta.json` (`none` models a missing or unparsable file). -/
structure Disk where
  file : Option Str
  meta : Option Str
deriving DecidableEq

/-- The ledger module's full state: disk plus the in-memory
`lastHash` cursor and `initialized` flag. -/
structure LedgerSt where
  disk : Disk
  lastHash : Str
  initialized : Bool
deriving DecidableEq

/-- Module state at process start. -/
def initLedger : LedgerSt :=
  { disk := { file := none, meta := none }, lastHash := GENESIS, initialized := false }

/-- `sha256(timestamp, citizenHash, scheme, amount, prevHash)` — the digest of
the concatenated entry fields. -/
def entryHash (H : Str → Str) (t c s a p : Str) : Str :=
  H (t ++ c ++ s ++ a ++ p)

/-- One ledger line without its terminating newline:
`Timestamp|CitizenHash|Scheme|Amount|PreviousHash|CurrentHash`. -/
def renderLine (t c s a p cu : Str) : Str :=
  t ++ '|' :: c ++ '|' :: s ++ '|' :: a ++ '|' :: p ++ '|' :: cu

/-- `content.split('\n').map(l => l.trim()).filter(Boolean)`. -/
def parseLines (content : Str) : List Str :=
  ((splitOnChar '\n' content).map trimStr).filter (fun l => l ≠ [])

/-- One iteration of the chain walk of `verifyIntegrity` (step 2): split
the line on `|`, require exactly 6 fields, the declared previous hash to
equal the running hash, and the declared current hash to equal the digest
recomputed from the line's own fields; yields the new running hash. -/
def chainStep (H : Str → Str) (prev line : Str) : Option Str :=
  match splitOnChar '|' line with
  | [t, c, s, a, p, cu] =>
    if p = prev ∧ cu = entryHash H t c s a p then some cu else none
  | _ => none

/-- The chain walk of `verifyIntegrity` (step 2): run `chainStep` over the
lines from the genesis hash, stopping at the first failing line.  Returns
the final running hash on success. -/
def chainWalk (H : Str → Str) (prev : Str) : List Str → Option Str
  | [] => some prev
  | l :: ls =>
    match chainStep H prev l with
    | some cu => chainWalk H cu ls
    | none => none

/-- Step 2 of `verifyIntegrity()` : walk the hash chain; on failure freeze
and report false, on success cache the final chain hash in `lastHash`. -/
def verifyWalk (H : Str → Str) (l : LedgerSt) (sys : SysState) (content : Str) :
    Bool × LedgerSt × SysState :=
  match chainWalk H GENESIS (parseLines content) with
  | none => (false, l, freeze sys)
  | some h => (true, { l with lastHash := h, initialized := true }, sys)

/-- `verifyIntegrity()` : returns the boolean result together with the
updated ledger module state and system state (it may `freeze`).  Step 1 is
the stored-digest comparison (skipped when no meta is stored), step 2 the
chain walk. -/
def verifyIntegrity (H : Str → Str) (l : LedgerSt) (sys : SysState) :
    Bool × LedgerSt × SysState :=
  match l.disk.file with
  | none => (true, { l with initialized := true }, sys)
  | some content =>
    match l.disk.meta with
    | some m =>
      if m = H content then verifyWalk H l sys content
      else (false, l, freeze sys)
    | none => verifyWalk H l sys content

/-- Input to `append`. -/
structure Entry where
  citizenHash : Str
  scheme : Str
  amount : Int
deriving DecidableEq

/-- Return value of a successful `append`. -/
structure AppendRes where
  timestamp : Str
  currentHash : Str
deriving DecidableEq

/-- `append({citizenHash, scheme, amount})`.  The wall-clock timestamp is the
parameter `ts`.  `writeOk = false` models `fs.appendFileSync` raising: the
write point is reached but nothing after it executes (no file change, no
meta rewrite, no cursor advance), and the caller sees the exception (`none`).
Note the internal `verifyIntegrity` call happens first when the module is
uninitialised, and its outcome is never consulted. -/
def append (H : Str → Str) (writeOk : Bool) (ts : Str) (e : Entry)
    (l : LedgerSt) (sys : SysState) : Option AppendRes × LedgerSt × SysState :=
  let v := if l.initialized then (l, sys)
           else ((verifyIntegrity H l sys).2.1, (verifyIntegrity H l sys).2.2)
  let l := v.1
  let sys := v.2
  let prev := l.lastHash
  let a := intStr e.amount
  let cu := entryHash H ts e.citizenHash e.scheme a prev
  if writeOk then
    let newFile := (l.disk.file.getD []) ++ renderLine ts e.citizenHash e.scheme a prev cu ++ ['\n']
    (some ⟨ts, cu⟩,
     { disk := { file := some newFile, meta := some (H newFile) },
       lastHash := cu, initialized := l.initialized },
     sys)
  else
    (none, l, sys)

/-- A run of successful appends (each with its own timestamp). -/
def appendAll (H : Str → Str) : List (Str × Entry) → LedgerSt → SysState → LedgerSt × SysState
  | [], l, sys => (l, sys)
  | (ts, e) :: rest, l, sys =>
    let r := append H true ts e l sys
    appendAll H rest r.2.1 r.2.2

/-! ### registry.js (interface) and validator.js — the 5-gate pipeline -/

/-- `registry.hashCitizenId` : trim, left-zero-pad to 12 digits, digest. -/
def hashCitizenId (H : Str → Str) (raw : Str) : Str :=
  H (padStart12 (trimStr raw))

/-- The registry record shape built by `registry.loadRegistry` (the registry
itself is an external read-only collaborator, modelled as a lookup
function).  `last_claim_date` is milliseconds since the epoch. -/
structure Record where
  account_status : Str
  aadhaar_linked : Bool
  scheme_eligibility : Str
  scheme_amount : Int
  last_claim_date : Option Int
  claim_count : Int
deriving DecidableEq

/-- The `gate` string of a decision object. -/
inductive Gate
  | System
  | Replay
  | Eligibility
  | Budget
  | Frequency
  | Approved
deriving DecidableEq

/-- The `reason` string of a decision object, as the template it is built
from together with the exact values interpolated into it.  String-typed
arguments carry the interpolated text verbatim. -/
inductive Reason
  | systemFrozen
  | systemPaused
  | duplicate
  | notFound
  | notActive (status : Str)
  | aadhaarNotLinked
  | schemeMismatch (eligible asked : Str)
  | claimLimit (count : Int)
  | budgetExhausted
  | insufficientBudget (available required : Int)
  | frequencyViolation (daysAgo daysLeft : Int)
  | approvedOk
deriving DecidableEq

/-- The outbound decision object of `validate`.  Rejections carry only
`approved`/`gate`/`reason`; approvals additionally carry `amount`,
`scheme` and `timestamp` (the optional fields are `none` otherwise). -/
structure Decision where
  approved : Bool
  gate : Gate
  reason : Reason
  amount : Option Int
  scheme : Option Str
  timestamp : Option Str
deriving DecidableEq

/-- Shared mutable state seen by one `validate` call: the system-state
singleton, the session `processedHashes` replay set, and the ledger. -/
structure World where
  sys : SysState
  replay : List Str
  ledger : LedgerSt
deriving DecidableEq

def rejected (g : Gate) (r : Reason) : Decision :=
  { approved := false, gate := g, reason := r,
    amount := none, scheme := none, timestamp := none }

/-- Milliseconds per day, the divisor of the gate-5 day computation. -/
def MS_PER_DAY : Int := 1000 * 60 * 60 * 24

/-- `validate({citizenId, scheme})`.  `H` is the digest, `lookup` the
registry, `now`/`nowStr` the clock (epoch ms / ISO string), `writeOk`
whether the durable ledger write succeeds.  A result of `none` models the
exception a failed durable write raises out of `validate`. -/
def validate (H : Str → Str) (lookup : Str → Option Record)
    (now : Int) (nowStr : Str) (writeOk : Bool)
    (citizenId scheme : Str) (w : World) : Option Decision × World :=
  let citizenHash := hashCitizenId H citizenId
  let status := w.sys.status
  let budget := w.sys.budget
  -- Gate 1: System Status
  if status = .frozen then (some (rejected .System .systemFrozen), w)
  else if status = .paused then (some (rejected .System .systemPaused), w)
  -- Gate 2: Replay / Duplicate Block
  else if citizenHash ∈ w.replay then (some (rejected .Replay .duplicate), w)
  else
    -- Gate 3: Eligibility
    match lookup citizenHash with
    | none => (some (rejected .Eligibility .notFound), w)
    | some record =>
      if lowerStr record.account_status ≠ ("active".data) then
        (some (rejected .Eligibility (.notActive record.account_status)), w)
      else if record.aadhaar_linked = false then
        (some (rejected .Eligibility .aadhaarNotLinked), w)
      else if lowerStr record.scheme_eligibility ≠ lowerStr (trimStr scheme) then
        (some (rejected .Eligibility (.schemeMismatch record.scheme_eligibility scheme)), w)
      else if record.claim_count > 3 then
        (some (rejected .Eligibility (.claimLimit record.claim_count)), w)
      else
        let amount := record.scheme_amount
        -- Gate 4: Budget
        if budget ≤ 0 then
          (some (rejected .Budget .budgetExhausted), { w with sys := freeze w.sys })
        else if budget < amount then
          (some (rejected .Budget (.insufficientBudget budget amount)), w)
        else
          -- Gate 5: Frequency (30-day check); then approval side effects:
          -- deduct, count, record hash, append to ledger
          let approve : Option Decision × World :=
            let sys := incrTx (deduct amount w.sys)
            let replay := citizenHash :: w.replay
            match append H writeOk nowStr
                { citizenHash := citizenHash, scheme := scheme, amount := amount }
                w.ledger sys with
            | (some res, l2, sys2) =>
              (some { approved := true, gate := .Approved, reason := .approvedOk,
                      amount := some amount, scheme := some scheme,
                      timestamp := some res.timestamp },
               { sys := sys2, replay := replay, ledger := l2 })
            | (none, l2, sys2) =>
              (none, { sys := sys2, replay := replay, ledger := l2 })
          match record.last_claim_date with
          | some d =>
            if now - d < 30 * MS_PER_DAY then
              (some (rejected .Frequency
                (.frequencyViolation (Int.fdiv (now - d) MS_PER_DAY)
                  (-(Int.fdiv ((now - d) - 30 * MS_PER_DAY) MS_PER_DAY)))), w)
            else approve
          | none => approve

/-! ### Auxiliary notions used by the statements -/

/-- The four invariant clauses of §3 for one state operation `f` at state
`s` : budget stays non-negative, never increases, the transaction counter
never decreases, and `frozen` is absorbing. -/
def PreservesInv (s : SysState) (f : SysState → SysState) : Prop :=
  0 ≤ (f s).budget ∧ (f s).budget ≤ s.budget ∧
  s.transactionCount ≤ (f s).transactionCount ∧
  (s.status = .frozen → (f s).status = .frozen)

/-- A character that may appear inside a ledger field without disturbing
parsing: not the field separator and not a newline. -/
def cleanChar (c : Char) : Bool := !(c == '|') && !(c == '\n')

/-- A field-safe string (no separator, no newline). -/
def cleanStr (s : Str) : Bool := s.all cleanChar

/-- A hash-like word: field-safe and whitespace-free (true of hex digests,
ISO timestamps and decimal amount renderings). -/
def solidChar (c : Char) : Bool := cleanChar c && !c.isWhitespace

def solidStr (s : Str) : Bool := s.all solidChar

/-- Newline-free. -/
def nlFree (s : Str) : Bool := s.all (fun c => !(c == '\n'))

/-- First character (if any) is not whitespace. -/
def noWSHead : Str → Bool
  | [] => true
  | c :: _ => !c.isWhitespace

/-- The digest always produces hash-like words (true of SHA-256 hex). -/
def solidHash (H : Str → Str) : Prop := ∀ s, solidStr (H s) = true

/-- Entry fields that serialize and parse back without interference. -/
def cleanEntry (e : Entry) : Prop :=
  solidStr e.citizenHash = true ∧ cleanStr e.scheme = true ∧
  solidStr (intStr e.amount) = true

/-- Concatenate line bodies, each terminated by a newline — the shape of
`ledger.txt` after a run of appends. -/
def joinNL (bs : List Str) : Str := (bs.map (fun b => b ++ ['\n'])).flatten

/-- A well-formed persisted line body: trim-invariant, non-empty,
newline-free. -/
def goodLine (b : Str) : Prop := trimStr b = b ∧ b ≠ [] ∧ nlFree b = true

/-- The ledger-module representation invariant tying the in-memory cursor
to the persisted chain: initialized, hash-like cursor, the chain walk of the
stored bodies ends at the cursor, every body is well-formed, and the disk
holds exactly those bodies with a matching stored digest (or nothing yet). -/
def LedgerRep (H : Str → Str) (l : LedgerSt) (bodies : List Str) : Prop :=
  l.initialized = true ∧
  solidStr l.lastHash = true ∧
  chainWalk H GENESIS bodies = some l.lastHash ∧
  (∀ b ∈ bodies, goodLine b) ∧
  ((l.disk.file = none ∧ bodies = []) ∨
   (l.disk.file = some (joinNL bodies) ∧ l.disk.meta = some (H (joinNL bodies))))

/-- After any successful append the disk is digest-coherent: the stored
digest is the digest of the stored file. -/
def coherentDisk (H : Str → Str) (l : LedgerSt) : Prop :=
  ∃ f, l.disk.file = some f ∧ l.disk.meta = some (H f)

/-- The line bodies a run of appends writes, starting from cursor `prev`:
each line's declared previous hash is the running hash and its current hash
is the digest of its own fields and that declared previous hash. -/
def chainBodies (H : Str → Str) (prev : Str) : List (Str × Entry) → List Str
  | [] => []
  | (ts, e) :: rest =>
    let a := intStr e.amount
    let cu := entryHash H ts e.citizenHash e.scheme a prev
    renderLine ts e.citizenHash e.scheme a prev cu :: chainBodies H cu rest

/-- The cursor value after a run of appends starting from `prev`. -/
def chainLast (H : Str → Str) (prev : Str) : List (Str × Entry) → Str
  | [] => prev
  | (ts, e) :: rest =>
    chainLast H (entryHash H ts e.citizenHash e.scheme (intStr e.amount) prev) rest

/-- The line body `append` writes for entry `e` at cursor `prev`. -/
def appendLineOf (H : Str → Str) (ts : Str) (e : Entry) (prev : Str) : Str :=
  renderLine ts e.citizenHash e.scheme (intStr e.amount) prev
    (entryHash H ts e.citizenHash e.scheme (intStr e.amount) prev)

/-- The ledger-module state after a successful append of `e` at cursor
`prev` onto the persisted bodies `bs`. -/
def postAppend (H : Str → Str) (ts : Str) (e : Entry) (bs : List Str) (prev : Str) : LedgerSt :=
  { disk := { file := some (joinNL (bs ++ [appendLineOf H ts e prev])),
              meta := some (H (joinNL (bs ++ [appendLineOf H ts e prev]))) },
    lastHash := entryHash H ts e.citizenHash e.scheme (intStr e.amount) prev,
    initialized := true }

/-- Indian-system digit grouping of a reversed digit tail: pairs separated
by commas (the part above the last three digits). -/
def chunk2 : Str → Str
  | [] => []
  | [a] => [a]
  | [a, b] => [a, b]
  | a :: b :: c :: rest => a :: b :: ',' :: chunk2 (c :: rest)

/-- JS `n.toLocaleString('en-IN')` for an integer: decimal digits grouped
last-three then twos, comma-separated, with a leading minus for negatives. -/
def inrStr (n : Int) : Str :=
  let ds := intStr (n.natAbs : Int)
  let core := if ds.length ≤ 3 then ds
    else (ds.reverse.take 3 ++ ',' :: chunk2 (ds.reverse.drop 3)).reverse
  if n < 0 then '-' :: core else core

/-- The data interpolated into the `reason` template of a decision, each
piece rendered exactly as the source template renders it: strings verbatim,
the claim count and day counts as plain decimal (`${n}`), the budget and
amount figures grouped (`toLocaleString('en-IN')`). -/
def reasonStrings : Reason → List Str
  | .notActive s => [s]
  | .schemeMismatch e a => [e, a]
  | .claimLimit n => [intStr n]
  | .insufficientBudget b a => [inrStr b, inrStr a]
  | .frequencyViolation d l => [intStr d, intStr l]
  | _ => []

/-- All rendered components of an outbound decision object: the reason's
interpolated pieces, the approval amount as its decimal rendering, the
echoed scheme and the timestamp. -/
def decisionStrings (d : Decision) : List Str :=
  reasonStrings d.reason ++ (d.amount.map intStr).toList ++
    d.scheme.toList ++ d.timestamp.toList

/-! ### Concrete fixtures used by witnesses and counterexamples -/

/-- An injective stand-in digest for concrete evaluation. -/
def hashTag : Str → Str := fun s => '#' :: s

/-- A constant hash-like stand-in digest (trivially `solidHash`). -/
def hashConst : Str → Str := fun _ => ['h']

def cid0 : Str := "123456789012".data

def tok0 : Str := hashCitizenId hashTag cid0

def foodStr : Str := "Food".data

def ts1 : Str := "T1".data

def rec0 : Record :=
  { account_status := "active".data, aadhaar_linked := true,
    scheme_eligibility := foodStr, scheme_amount := 5000,
    last_claim_date := none, claim_count := 0 }

def lookup0 : Str → Option Record := fun h => if h = tok0 then some rec0 else none

def sys0 : SysState := { status := .active, budget := 1000000, transactionCount := 0 }

def w0 : World := { sys := sys0, replay := [], ledger := initLedger }

def wPaused : World :=
  { sys := { sys0 with status := .paused }, replay := [tok0], ledger := initLedger }

def wReplay : World := { w0 with replay := [tok0] }

def w0zero : World := { w0 with sys := { sys0 with budget := 0 } }

def w5000 : World := { w0 with sys := { sys0 with budget := 5000 } }

def entry0 : Entry := { citizenHash := "abcd".data, scheme := foodStr, amount := 5000 }

/-- An entry whose scheme smuggles the field separator. -/
def entryPipe : Entry := { citizenHash := "c".data, scheme := "a|b".data, amount := 5 }

/-- A single chain-valid ledger line (genesis-anchored, digest correct). -/
def lineNoNL : Str :=
  renderLine ("T0".data) ("cc".data) foodStr ("5".data) GENESIS
    (entryHash hashTag ("T0".data) ("cc".data) foodStr ("5".data) GENESIS)

/-- A chain-valid on-disk ledger whose file lacks the trailing newline
(e.g. externally migrated), as seen at a fresh process start:
`verifyIntegrity` accepts it as is. -/
def chainValidNoNL : LedgerSt :=
  { disk := { file := some lineNoNL, meta := some (hashTag lineNoNL) },
    lastHash := GENESIS, initialized := false }

/-- A registry record whose claim counter is the 12-digit identity read as
a number. -/
def recBigCount : Record := { rec0 with claim_count := 123456789012 }

def lookupBig : Str → Option Record :=
  fun h => if h = tok0 then some recBigCount else none

/-- Ledger state after one append of `entry0` under `hashTag`. -/
def ledger1 : LedgerSt := (appendAll hashTag [(ts1, entry0)] initLedger sys0).1

def file1 : Str := ledger1.disk.file.getD []

/-- `ledger1` with one character of the persisted file changed. -/
def tamper1 : LedgerSt :=
  { ledger1 with disk := { ledger1.disk with file := some (file1.set 0 'X') } }

/-- A disk state whose stored digest disagrees with its contents. -/
def mismatchLedger : LedgerSt :=
  { disk := { file := some ['x'], meta := some ['y'] },
    lastHash := GENESIS, initialized := false }

/-! ## C8 — System State operation invariants -/

/-- C8: every System State operation — `pause`, `resume`, `freeze`,
`deduct` with a positive amount, `incrTx` — keeps the budget non-negative
and non-increasing, keeps the transaction counter non-decreasing, and never
leaves the `frozen` status (frozen is absorbing, in particular under
`resume`). -/
theorem C8_state_ops_preserve_invariants (s : SysState) (a : Int)
    (hb : 0 ≤ s.budget) (ha : 0 < a) :
    PreservesInv s pause ∧ PreservesInv s resume ∧ PreservesInv s freeze ∧
    PreservesInv s (deduct a) ∧ PreservesInv s incrTx := by
  refine ⟨?_, ?_, ?_, ?_, ?_⟩
  · unfold PreservesInv pause
    split <;> rename_i h <;>
      refine ⟨hb, le_refl _, le_refl _, fun hf => ?_⟩
    · rw [hf] at h; exact absurd h (by simp)
    · exact hf
  · unfold PreservesInv resume
    split <;> rename_i h <;>
      refine ⟨hb, le_refl _, le_refl _, fun hf => ?_⟩
    · rw [hf] at h; exact absurd h (by simp)
    · exact hf
  · exact ⟨hb, le_refl _, le_refl _, fun _ => rfl⟩
  · unfold PreservesInv deduct freeze
    dsimp only
    split <;> rename_i h
    · exact ⟨le_refl _, hb, le_refl _, fun _ => rfl⟩
    · exact ⟨by show (0:Int) ≤ s.budget - a; omega,
        by show s.budget - a ≤ s.budget; omega, le_refl _, fun hf => hf⟩
  · exact ⟨hb, le_refl _, Nat.le_succ _, fun hf => hf⟩

/-- Witness for C8 at a concrete state and amount. -/
theorem C8_state_ops_preserve_invariants_witness :
    PreservesInv sys0 pause ∧ PreservesInv sys0 resume ∧
    PreservesInv sys0 freeze ∧ PreservesInv sys0 (deduct 3) ∧
    PreservesInv sys0 incrTx :=
  C8_state_ops_preserve_invariants sys0 3 (by decide) (by decide)

/-! ## C5 — replay rejection -/

/-- C5 counterexample: with the system paused and the token already in the
replay set, `validate` reports gate `System`, not `Replay` — the claim's
unconditional "rejects at the Replay gate" fails when gate 1 fails first. -/
theorem C5_counterexample_paused_replay_reports_system :
    tok0 ∈ wPaused.replay ∧
    (validate hashTag lookup0 0 ts1 true cid0 foodStr wPaused).1 =
      some (rejected .System .systemPaused) ∧
    Gate.System ≠ Gate.Replay := by
  refine ⟨by decide, by decide, by decide⟩

/-- C5 (amended): for every identity whose token is already in the session
replay set, *when the system is active*, `validate` rejects at the `Replay`
gate — even when the identity is also ineligible (the registry lookup is
arbitrary) — and leaves the whole world (budget, transaction count, ledger,
replay set) unchanged. -/
theorem C5_replay_rejected_when_active (H : Str → Str)
    (lookup : Str → Option Record) (now : Int) (nowStr : Str)
    (writeOk : Bool) (citizenId scheme : Str) (w : World)
    (hact : w.sys.status = .active)
    (hmem : hashCitizenId H citizenId ∈ w.replay) :
    validate H lookup now nowStr writeOk citizenId scheme w =
      (some (rejected .Replay .duplicate), w) := by
  unfold validate
  simp [hact, hmem]

/-- Witness for C5 at a concrete active world with the token replayed. -/
theorem C5_replay_rejected_when_active_witness :
    validate hashTag lookup0 0 ts1 true cid0 foodStr wReplay =
      (some (rejected .Replay .duplicate), wReplay) :=
  C5_replay_rejected_when_active hashTag lookup0 0 ts1 true cid0 foodStr
    wReplay (by decide) (by decide)

/-! ## Helper lemmas about `verifyIntegrity` and `append` -/

/-- `verifyIntegrity` either leaves the system state alone or freezes it. -/
theorem verify_sys_cases (H : Str → Str) (l : LedgerSt) (sys : SysState) :
    (verifyIntegrity H l sys).2.2 = sys ∨ (verifyIntegrity H l sys).2.2 = freeze sys := by
  unfold verifyIntegrity verifyWalk
  repeat' split
  all_goals simp

/-- A successful durable write returns the given timestamp and leaves the
budget and transaction counter of the system state it was handed intact
(only the internal verification may freeze the status). -/
theorem append_writeOk_shape (H : Str → Str) (ts : Str) (e : Entry)
    (l : LedgerSt) (sys : SysState) :
    ∃ res l2 sys2, append H true ts e l sys = (some res, l2, sys2) ∧
      res.timestamp = ts ∧ sys2.budget = sys.budget ∧
      sys2.transactionCount = sys.transactionCount ∧
      (sys.status = .frozen → sys2.status = .frozen) := by
  unfold append
  cases hinit : l.initialized
  · simp only [hinit, Bool.false_eq_true, if_false]
    rcases verify_sys_cases H l sys with hv | hv
    · exact ⟨_, _, _, rfl, rfl, by rw [hv], by rw [hv],
        fun hf => by rw [hv]; exact hf⟩
    · exact ⟨_, _, _, rfl, rfl, by rw [hv]; rfl, by rw [hv]; rfl,
        fun hf => by rw [hv]; rfl⟩
  · exact ⟨_, _, _, rfl, rfl, rfl, rfl, fun hf => hf⟩

/-- When all five gates pass and the append result is given, `validate`
returns the approval decision and the mutated world. -/
theorem validate_approves (H : Str → Str) (lookup : Str → Option Record)
    (now : Int) (nowStr : Str) (citizenId scheme : Str) (w : World) (r : Record)
    (hact : w.sys.status = .active)
    (hmem : hashCitizenId H citizenId ∉ w.replay)
    (hrec : lookup (hashCitizenId H citizenId) = some r)
    (hst : lowerStr r.account_status = "active".data)
    (haad : r.aadhaar_linked = true)
    (hsch : lowerStr r.scheme_eligibility = lowerStr (trimStr scheme))
    (hcc : r.claim_count ≤ 3)
    (hbud0 : 0 < w.sys.budget)
    (hbud1 : r.scheme_amount ≤ w.sys.budget)
    (hfreq : ∀ d, r.last_claim_date = some d → ¬(now - d < 30 * MS_PER_DAY))
    (res : AppendRes) (l2 : LedgerSt) (sys2 : SysState)
    (happ : append H true nowStr
        { citizenHash := hashCitizenId H citizenId, scheme := scheme,
          amount := r.scheme_amount }
        w.ledger (incrTx (deduct r.scheme_amount w.sys)) = (some res, l2, sys2)) :
    validate H lookup now nowStr true citizenId scheme w =
      (some { approved := true, gate := .Approved, reason := .approvedOk,
              amount := some r.scheme_amount, scheme := some scheme,
              timestamp := some res.timestamp },
       { sys := sys2, replay := hashCitizenId H citizenId :: w.replay,
         ledger := l2 }) := by
  have hcc' : ¬(r.claim_count > 3) := by omega
  have hb0 : ¬(w.sys.budget ≤ 0) := by omega
  have hb1 : ¬(w.sys.budget < r.scheme_amount) := by omega
  unfold validate
  rcases hld : r.last_claim_date with _ | d
  · simp [hact, hmem, hrec, hst, haad, hsch, hcc', hb0, hb1, hld, happ]
  · have hf := hfreq d hld
    simp [hact, hmem, hrec, hst, haad, hsch, hcc', hb0, hb1, hld, hf, happ]

/-- A failed `verifyIntegrity` always returns exactly
`(false, unchanged module state, frozen system)` — both the digest-mismatch
path and the chain-walk path leave `lastHash`/`initialized` untouched. -/
theorem verify_fail_eq (H : Str → Str) (l : LedgerSt) (sys : SysState)
    (h : (verifyIntegrity H l sys).1 = false) :
    verifyIntegrity H l sys = (false, l, freeze sys) := by
  unfold verifyIntegrity verifyWalk at h ⊢
  rcases hf : l.disk.file with _ | content <;> simp only [hf] at h ⊢
  · simp at h
  · rcases hm : l.disk.meta with _ | m <;> simp only [hm] at h ⊢
    · rcases hw : chainWalk H GENESIS (parseLines content) with _ | q <;>
        simp only [hw] at h ⊢ <;> simp_all
    · by_cases he : m = H content
      · simp only [if_pos he] at h ⊢
        rcases hw : chainWalk H GENESIS (parseLines content) with _ | q <;>
          simp only [hw] at h ⊢ <;> simp_all
      · simp only [if_neg he]

/-! ## C6 — Budget gate ordering -/

/-- C6: for a claim that reaches the Budget gate (system active, not a
replay, eligibility passed): with a zero budget the system is force-frozen
and the claim rejected with the exhausted reason — regardless of the
required amount, i.e. the zero-budget check fires before the shortfall
check; with a positive budget smaller than the required amount the claim
is rejected with the insufficient reason and the system stays active. -/
theorem C6_budget_gate_order (H : Str → Str) (lookup : Str → Option Record)
    (now : Int) (nowStr : Str) (writeOk : Bool)
    (citizenId scheme : Str) (w : World) (r : Record)
    (hact : w.sys.status = .active)
    (hmem : hashCitizenId H citizenId ∉ w.replay)
    (hrec : lookup (hashCitizenId H citizenId) = some r)
    (hst : lowerStr r.account_status = "active".data)
    (haad : r.aadhaar_linked = true)
    (hsch : lowerStr r.scheme_eligibility = lowerStr (trimStr scheme))
    (hcc : r.claim_count ≤ 3) :
    (w.sys.budget = 0 →
      validate H lookup now nowStr writeOk citizenId scheme w =
        (some (rejected .Budget .budgetExhausted), { w with sys := freeze w.sys }) ∧
      (freeze w.sys).status = .frozen) ∧
    (0 < w.sys.budget → w.sys.budget < r.scheme_amount →
      validate H lookup now nowStr writeOk citizenId scheme w =
        (some (rejected .Budget (.insufficientBudget w.sys.budget r.scheme_amount)), w) ∧
      w.sys.status = .active) := by
  have hcc' : ¬(r.claim_count > 3) := by omega
  constructor
  · intro hz
    refine ⟨?_, rfl⟩
    have hb0 : w.sys.budget ≤ 0 := by omega
    unfold validate
    simp [hact, hmem, hrec, hst, haad, hsch, hcc', hb0]
  · intro hp hlt
    refine ⟨?_, hact⟩
    have hb0 : ¬(w.sys.budget ≤ 0) := by omega
    unfold validate
    simp [hact, hmem, hrec, hst, haad, hsch, hcc', hb0, hlt]

/-- Witness for C6 at a concrete zero-budget world. -/
theorem C6_budget_gate_order_witness :
    ((w0zero.sys.budget = 0 →
      validate hashTag lookup0 0 ts1 true cid0 foodStr w0zero =
        (some (rejected .Budget .budgetExhausted), { w0zero with sys := freeze w0zero.sys }) ∧
      (freeze w0zero.sys).status = .frozen) ∧
    (0 < w0zero.sys.budget → w0zero.sys.budget < rec0.scheme_amount →
      validate hashTag lookup0 0 ts1 true cid0 foodStr w0zero =
        (some (rejected .Budget (.insufficientBudget w0zero.sys.budget rec0.scheme_amount)), w0zero) ∧
      w0zero.sys.status = .active)) :=
  C6_budget_gate_order hashTag lookup0 0 ts1 true cid0 foodStr w0zero rec0
    (by decide) (by decide) (by decide) (by decide) (by decide) (by decide) (by decide)

/-! ## C7 — exact-budget approval freezes -/

/-- C7: a claim that passes all five gates with the remaining budget exactly
equal to the required amount is approved, and afterwards the budget is 0 and
the system status is frozen. -/
theorem C7_exact_budget_approves_then_freezes (H : Str → Str)
    (lookup : Str → Option Record) (now : Int) (nowStr : Str)
    (citizenId scheme : Str) (w : World) (r : Record)
    (hact : w.sys.status = .active)
    (hmem : hashCitizenId H citizenId ∉ w.replay)
    (hrec : lookup (hashCitizenId H citizenId) = some r)
    (hst : lowerStr r.account_status = "active".data)
    (haad : r.aadhaar_linked = true)
    (hsch : lowerStr r.scheme_eligibility = lowerStr (trimStr scheme))
    (hcc : r.claim_count ≤ 3)
    (hfreq : ∀ d, r.last_claim_date = some d → ¬(now - d < 30 * MS_PER_DAY))
    (heq : w.sys.budget = r.scheme_amount)
    (hpos : 0 < r.scheme_amount) :
    ∃ d w2, validate H lookup now nowStr true citizenId scheme w = (some d, w2) ∧
      d.approved = true ∧ w2.sys.budget = 0 ∧ w2.sys.status = .frozen := by
  obtain ⟨res, l2, sys2, happ, hts, hb, htx, hfz⟩ :=
    append_writeOk_shape H nowStr
      { citizenHash := hashCitizenId H citizenId, scheme := scheme,
        amount := r.scheme_amount }
      w.ledger (incrTx (deduct r.scheme_amount w.sys))
  have hval := validate_approves H lookup now nowStr citizenId scheme w r
    hact hmem hrec hst haad hsch hcc (by omega) (by omega) hfreq res l2 sys2 happ
  have hded : deduct r.scheme_amount w.sys =
      freeze { w.sys with budget := 0 } := by
    unfold deduct
    simp [heq]
  refine ⟨_, _, hval, rfl, ?_, ?_⟩
  · rw [hb, hded]
    rfl
  · apply hfz
    rw [hded]
    rfl

/-- Witness for C7: budget exactly 5000 against the 5000-amount scheme. -/
theorem C7_exact_budget_approves_then_freezes_witness :
    ∃ d w2, validate hashTag lookup0 0 ts1 true cid0 foodStr w5000 = (some d, w2) ∧
      d.approved = true ∧ w2.sys.budget = 0 ∧ w2.sys.status = .frozen :=
  C7_exact_budget_approves_then_freezes hashTag lookup0 0 ts1 cid0 foodStr
    w5000 rec0 (by decide) (by decide) (by decide) (by decide) (by decide)
    (by decide) (by decide) (fun d h => by simp [rec0] at h) (by decide) (by decide)

/-! ## C2 — single-character tampering is detected -/

/-- One successful append leaves the disk digest-coherent. -/
theorem append_coherent (H : Str → Str) (ts : Str) (e : Entry)
    (l : LedgerSt) (sys : SysState) :
    coherentDisk H (append H true ts e l sys).2.1 := by
  unfold coherentDisk append
  cases hinit : l.initialized <;> simp [hinit]

/-- A run of appends preserves digest coherence. -/
theorem appendAll_coherent (H : Str → Str) (entries : List (Str × Entry)) :
    ∀ (l : LedgerSt) (sys : SysState), coherentDisk H l →
      coherentDisk H (appendAll H entries l sys).1 := by
  induction entries with
  | nil => intro l sys h; exact h
  | cons te rest ih =>
    intro l sys _
    rcases te with ⟨ts, e⟩
    exact ih _ _ (append_coherent H ts e l sys)

/-- A non-empty run of appends from any start leaves the disk coherent. -/
theorem appendAll_coherent_of_ne (H : Str → Str) (entries : List (Str × Entry))
    (l : LedgerSt) (sys : SysState) (h : entries ≠ []) :
    coherentDisk H (appendAll H entries l sys).1 := by
  cases entries with
  | nil => exact absurd rfl h
  | cons te rest =>
    rcases te with ⟨ts, e⟩
    exact appendAll_coherent H rest _ _ (append_coherent H ts e l sys)

/-- Writing a different character at a valid index changes the list. -/
theorem set_ne_of_get_ne (f : Str) : ∀ (i : Nat) (c : Char) (hi : i < f.length),
    c ≠ f.get ⟨i, hi⟩ → f.set i c ≠ f := by
  induction f with
  | nil => intro i c hi; simp at hi
  | cons a as ih =>
    intro i c hi hc he
    cases i with
    | zero =>
      have h1 : c = a := by injection he
      exact hc (h1.trans rfl)
    | succ n =>
      have h2 : as.set n c = as := by injection he
      exact ih n c (Nat.lt_of_succ_lt_succ hi) hc h2

/-- C2: for a ledger file produced by a (non-empty) run of appends together
with its stored file-level digest, changing any single character of the file
makes `verifyIntegrity` return false and leaves the system status frozen
(`H` collision-free, as assumed of SHA-256). -/
theorem C2_single_char_tamper_freezes (H : Str → Str)
    (entries : List (Str × Entry)) (sys : SysState) (lf : LedgerSt) (f : Str)
    (i : Nat) (c : Char)
    (hInj : Function.Injective H)
    (hne : entries ≠ [])
    (hlf : lf = (appendAll H entries initLedger sys).1)
    (hf : lf.disk.file = some f)
    (hi : i < f.length)
    (hc : c ≠ f.get ⟨i, hi⟩)
    (s2 : SysState) :
    (verifyIntegrity H { lf with disk := { lf.disk with file := some (f.set i c) } } s2).1 = false ∧
    (verifyIntegrity H { lf with disk := { lf.disk with file := some (f.set i c) } } s2).2.2.status = .frozen := by
  obtain ⟨g, hg1, hg2⟩ : coherentDisk H lf := by
    rw [hlf]; exact appendAll_coherent_of_ne H entries initLedger sys hne
  rw [hf] at hg1
  injection hg1 with hg1
  subst hg1
  have hdiff : H f ≠ H (f.set i c) := fun hh =>
    set_ne_of_get_ne f i c hi hc (hInj hh.symm)
  unfold verifyIntegrity
  simp only [hg2, if_neg hdiff]
  exact ⟨trivial, rfl⟩

set_option maxRecDepth 8000 in
/-- Witness for C2 at a concretely tampered one-entry ledger. -/
theorem C2_single_char_tamper_freezes_witness :
    (verifyIntegrity hashTag
      { ledger1 with disk := { ledger1.disk with file := some (file1.set 0 'X') } } sys0).1 = false ∧
    (verifyIntegrity hashTag
      { ledger1 with disk := { ledger1.disk with file := some (file1.set 0 'X') } } sys0).2.2.status = .frozen :=
  C2_single_char_tamper_freezes hashTag [(ts1, entry0)] sys0 ledger1 file1 0 'X'
    (fun a b h => by injection h) (by decide) rfl (by decide) (by decide) (by decide) sys0

/-! ## C10 — append ignores a failed internal verification -/

/-- C10: when `append` runs before any successful verification (module not
initialized, cursor still the genesis hash) and its internal
`verifyIntegrity` call fails (freezing the system), `append` still writes
the new entry using the stale genesis cursor as `previousEntryHash`,
overwrites the stored file-level digest to match the new file contents,
and reports success — it never aborts on the verification outcome. -/
theorem C10_append_writes_despite_failed_verify (H : Str → Str) (ts : Str)
    (e : Entry) (l : LedgerSt) (sys : SysState)
    (hinit : l.initialized = false)
    (hlast : l.lastHash = GENESIS)
    (hfail : (verifyIntegrity H l sys).1 = false) :
    append H true ts e l sys =
      (some { timestamp := ts,
              currentHash := entryHash H ts e.citizenHash e.scheme (intStr e.amount) GENESIS },
       { disk := { file := some (l.disk.file.getD [] ++ appendLineOf H ts e GENESIS ++ ['\n']),
                   meta := some (H (l.disk.file.getD [] ++ appendLineOf H ts e GENESIS ++ ['\n'])) },
         lastHash := entryHash H ts e.citizenHash e.scheme (intStr e.amount) GENESIS,
         initialized := false },
       freeze sys) := by
  have hv := verify_fail_eq H l sys hfail
  unfold append
  simp only [hinit, Bool.false_eq_true, if_false, hv]
  simp [hlast, appendLineOf]

/-- Witness for C10 at a concrete digest-mismatched disk. -/
theorem C10_append_writes_despite_failed_verify_witness :
    append hashTag true ts1 entry0 mismatchLedger sys0 =
      (some { timestamp := ts1,
              currentHash := entryHash hashTag ts1 entry0.citizenHash entry0.scheme
                (intStr entry0.amount) GENESIS },
       { disk := { file := some (mismatchLedger.disk.file.getD [] ++
                     appendLineOf hashTag ts1 entry0 GENESIS ++ ['\n']),
                   meta := some (hashTag (mismatchLedger.disk.file.getD [] ++
                     appendLineOf hashTag ts1 entry0 GENESIS ++ ['\n'])) },
         lastHash := entryHash hashTag ts1 entry0.citizenHash entry0.scheme
           (intStr entry0.amount) GENESIS,
         initialized := false },
       freeze sys0) :=
  C10_append_writes_despite_failed_verify hashTag ts1 entry0 mismatchLedger sys0
    rfl rfl (by decide)

/-! ## C3 — the structure of verifyIntegrity -/

/-- C3: on a present ledger file, `verifyIntegrity` (i) first compares the
recomputed file digest with the stored one and on mismatch freezes and
returns false with the module state (in particular the last-hash cursor)
untouched — the chain is not walked; (ii) otherwise it walks the chain from
the genesis hash (`chainWalk` checks field count, the declared previous
hash against the running hash, and the recomputed current hash, stopping at
the first failure), freezing and returning false if the walk fails; and
(iii) on success caches the final chain hash as the in-memory cursor and
returns true. -/
theorem C3_verify_characterization (H : Str → Str) (l : LedgerSt)
    (sys : SysState) (content : Str)
    (hf : l.disk.file = some content) :
    (∀ m, l.disk.meta = some m → m ≠ H content →
        verifyIntegrity H l sys = (false, l, freeze sys)) ∧
    ((∀ m, l.disk.meta = some m → m = H content) →
      (chainWalk H GENESIS (parseLines content) = none →
          verifyIntegrity H l sys = (false, l, freeze sys)) ∧
      (∀ q, chainWalk H GENESIS (parseLines content) = some q →
          verifyIntegrity H l sys =
            (true, { l with lastHash := q, initialized := true }, sys))) := by
  unfold verifyIntegrity verifyWalk
  simp only [hf]
  constructor
  · intro m hm hne
    simp only [hm, if_neg hne]
  · intro hmok
    constructor
    · intro hw
      rcases hm : l.disk.meta with _ | m
      · simp only [hm, hw]
      · simp only [hm, if_pos (hmok m hm), hw]
    · intro q hw
      rcases hm : l.disk.meta with _ | m
      · simp only [hm, hw]
      · simp only [hm, if_pos (hmok m hm), hw]

/-- Witness for C3: the digest-mismatch clause evaluated at a concrete
tampered disk. -/
theorem C3_verify_characterization_witness :
    verifyIntegrity hashTag mismatchLedger sys0 =
      (false, mismatchLedger, freeze sys0) :=
  (C3_verify_characterization hashTag mismatchLedger sys0 ['x'] rfl).1
    ['y'] rfl (by decide)

/-! ## C1 — durable-write failure on ledger append -/

/-- C1: at a fully eligible claim whose durable ledger write fails, the
failure does propagate (`validate` yields no decision, the claim is not
approved) — but the budget is left deducted (1,000,000 → 995,000), the
transaction counter incremented, and the token left in the replay set,
while the ledger disk is unchanged: the state is NOT as it was before the
claim, contradicting the claim's restoration requirement. -/
theorem C1_failed_write_leaves_state_mutated :
    (validate hashTag lookup0 0 ts1 false cid0 foodStr w0).1 = none ∧
    (validate hashTag lookup0 0 ts1 false cid0 foodStr w0).2.sys.budget = 995000 ∧
    (validate hashTag lookup0 0 ts1 false cid0 foodStr w0).2.sys.transactionCount = 1 ∧
    tok0 ∈ (validate hashTag lookup0 0 ts1 false cid0 foodStr w0).2.replay ∧
    (validate hashTag lookup0 0 ts1 false cid0 foodStr w0).2.ledger.disk = initLedger.disk ∧
    w0.sys.budget = 1000000 ∧ w0.sys.transactionCount = 0 ∧ w0.replay = [] := by
  refine ⟨by decide, by decide, by decide, by decide, by decide, by decide, by decide, by decide⟩

/-! ## C4 — lemma library: splitting, trimming, chain walking -/

theorem splitOnChar_ne_nil (sep : Char) (s : Str) : splitOnChar sep s ≠ [] := by
  cases s with
  | nil => simp [splitOnChar]
  | cons c cs =>
    rcases h : splitOnChar sep cs with _ | ⟨r, rs⟩
    · conv_lhs => rw [splitOnChar]
      rw [h]
      simp
    · conv_lhs => rw [splitOnChar]
      rw [h]
      by_cases hcs : c = sep <;> simp [hcs]

theorem splitOnChar_sepFree (sep : Char) (s : Str)
    (h : ∀ c ∈ s, c ≠ sep) : splitOnChar sep s = [s] := by
  induction s with
  | nil => rfl
  | cons c cs ih =>
    have hc : c ≠ sep := h c (List.mem_cons_self c cs)
    have ih2 := ih (fun x hx => h x (List.mem_cons_of_mem c hx))
    conv_lhs => rw [splitOnChar]
    rw [ih2]
    simp [hc]

theorem splitOnChar_append_sep (sep : Char) (xs ys : Str)
    (h : ∀ c ∈ xs, c ≠ sep) :
    splitOnChar sep (xs ++ sep :: ys) = xs :: splitOnChar sep ys := by
  induction xs with
  | nil =>
    simp only [List.nil_append]
    rcases hy : splitOnChar sep ys with _ | ⟨r, rs⟩
    · exact absurd hy (splitOnChar_ne_nil sep ys)
    · conv_lhs => rw [splitOnChar]
      rw [hy]
      simp
  | cons c cs ih =>
    have hc : c ≠ sep := h c (List.mem_cons_self c cs)
    have ih2 := ih (fun x hx => h x (List.mem_cons_of_mem c hx))
    simp only [List.cons_append]
    conv_lhs => rw [splitOnChar]
    rw [ih2]
    simp [hc]

theorem cleanStr_mem (s : Str) (h : cleanStr s = true) :
    ∀ c ∈ s, c ≠ '|' ∧ c ≠ '\n' := by
  intro c hc
  have hx := List.all_eq_true.mp h c hc
  unfold cleanChar at hx
  constructor <;> intro he <;> subst he <;> simp at hx

theorem solidStr_cleanStr (s : Str) (h : solidStr s = true) : cleanStr s = true := by
  apply List.all_eq_true.mpr
  intro c hc
  have hx := List.all_eq_true.mp h c hc
  unfold solidChar at hx
  rw [Bool.and_eq_true] at hx
  exact hx.1

theorem solidStr_ws (s : Str) (h : solidStr s = true) :
    ∀ c ∈ s, c.isWhitespace = false := by
  intro c hc
  have hx := List.all_eq_true.mp h c hc
  unfold solidChar at hx
  rw [Bool.and_eq_true] at hx
  simpa using hx.2

theorem cleanStr_nlFree (s : Str) (h : cleanStr s = true) : nlFree s = true := by
  apply List.all_eq_true.mpr
  intro c hc
  have hx := (cleanStr_mem s h c hc).2
  simpa using hx

theorem nlFree_mem (s : Str) (h : nlFree s = true) : ∀ c ∈ s, c ≠ '\n' := by
  intro c hc
  have hx := List.all_eq_true.mp h c hc
  simpa using hx

theorem joinNL_snoc (bs : List Str) (b : Str) :
    joinNL (bs ++ [b]) = joinNL bs ++ b ++ ['\n'] := by
  unfold joinNL
  rw [List.map_append, List.flatten_append]
  simp

theorem splitOnChar_joinNL (bs : List Str)
    (h : ∀ b ∈ bs, nlFree b = true) :
    splitOnChar '\n' (joinNL bs) = bs ++ [[]] := by
  induction bs with
  | nil => rfl
  | cons b rest ih =>
    have hb := nlFree_mem b (h b (List.mem_cons_self b rest))
    have ih2 := ih (fun x hx => h x (List.mem_cons_of_mem b hx))
    show splitOnChar '\n' ((b ++ ['\n']) ++ joinNL rest) = (b :: rest) ++ [[]]
    rw [List.append_assoc, List.singleton_append,
      splitOnChar_append_sep '\n' b (joinNL rest) hb, ih2]
    rfl

theorem map_trim_id (l : List Str) (h : ∀ b ∈ l, trimStr b = b) :
    l.map trimStr = l := by
  induction l with
  | nil => rfl
  | cons x xs ih =>
    rw [List.map_cons, h x (List.mem_cons_self x xs),
      ih (fun y hy => h y (List.mem_cons_of_mem x hy))]

theorem parseLines_joinNL (bs : List Str) (h : ∀ b ∈ bs, goodLine b) :
    parseLines (joinNL bs) = bs := by
  unfold parseLines
  rw [splitOnChar_joinNL bs (fun b hb => (h b hb).2.2)]
  rw [List.map_append, List.filter_append]
  rw [map_trim_id bs (fun b hb => (h b hb).1)]
  have h2 : List.filter (fun l => decide (l ≠ [])) bs = bs := by
    apply List.filter_eq_self.mpr
    intro b hb
    simpa using (h b hb).2.1
  simp only [h2, List.map_cons, List.map_nil, List.filter_cons, List.filter_nil]
  simp [trimStr]

theorem chainWalk_append (H : Str → Str) (ls ms : List Str) :
    ∀ prev, chainWalk H prev (ls ++ ms) =
      (chainWalk H prev ls).bind (fun q => chainWalk H q ms) := by
  induction ls with
  | nil => intro prev; rfl
  | cons l rest ih =>
    intro prev
    show chainWalk H prev (l :: (rest ++ ms)) = _
    conv_lhs => rw [chainWalk]
    conv_rhs => rw [chainWalk]
    rcases hs : chainStep H prev l with _ | cu
    · rfl
    · exact ih cu

theorem splitOnChar_renderLine (t c s a p cu : Str)
    (ht : ∀ x ∈ t, x ≠ '|') (hc : ∀ x ∈ c, x ≠ '|') (hs : ∀ x ∈ s, x ≠ '|')
    (ha : ∀ x ∈ a, x ≠ '|') (hp : ∀ x ∈ p, x ≠ '|') (hcu : ∀ x ∈ cu, x ≠ '|') :
    splitOnChar '|' (renderLine t c s a p cu) = [t, c, s, a, p, cu] := by
  unfold renderLine
  simp only [List.append_assoc, List.cons_append]
  rw [splitOnChar_append_sep '|' t _ ht, splitOnChar_append_sep '|' c _ hc,
    splitOnChar_append_sep '|' s _ hs, splitOnChar_append_sep '|' a _ ha,
    splitOnChar_append_sep '|' p _ hp, splitOnChar_sepFree '|' cu hcu]

theorem chainStep_renderLine (H : Str → Str) (t c s a p : Str)
    (ht : ∀ x ∈ t, x ≠ '|') (hc : ∀ x ∈ c, x ≠ '|') (hs : ∀ x ∈ s, x ≠ '|')
    (ha : ∀ x ∈ a, x ≠ '|') (hp : ∀ x ∈ p, x ≠ '|')
    (hcu : ∀ x ∈ entryHash H t c s a p, x ≠ '|') :
    chainStep H p (renderLine t c s a p (entryHash H t c s a p)) =
      some (entryHash H t c s a p) := by
  unfold chainStep
  rw [splitOnChar_renderLine t c s a p _ ht hc hs ha hp hcu]
  simp

theorem noWSHead_append (xs ys : Str) (hx : ∀ x ∈ xs, x.isWhitespace = false)
    (hy : noWSHead ys = true) : noWSHead (xs ++ ys) = true := by
  cases xs with
  | nil => exact hy
  | cons a as =>
    show noWSHead (a :: (as ++ ys)) = true
    unfold noWSHead
    simp [hx a (List.mem_cons_self a as)]

theorem dropWhile_ws_eq_self (s : Str) (h : noWSHead s = true) :
    s.dropWhile Char.isWhitespace = s := by
  cases s with
  | nil => rfl
  | cons c cs =>
    unfold noWSHead at h
    simp only [Bool.not_eq_true'] at h
    simp [List.dropWhile, h]

theorem trimStr_eq_self (s : Str) (h1 : noWSHead s = true)
    (h2 : noWSHead s.reverse = true) : trimStr s = s := by
  unfold trimStr
  rw [dropWhile_ws_eq_self s h1, dropWhile_ws_eq_self _ h2, List.reverse_reverse]

theorem renderLine_assoc (t c s a p cu : Str) :
    renderLine t c s a p cu =
      (t ++ '|' :: c ++ '|' :: s ++ '|' :: a ++ '|' :: p ++ ['|']) ++ cu := by
  simp [renderLine]

theorem goodLine_renderLine (t c s a p cu : Str)
    (ht : solidStr t = true) (hc : solidStr c = true) (hs : cleanStr s = true)
    (ha : solidStr a = true) (hp : solidStr p = true) (hcu : solidStr cu = true) :
    goodLine (renderLine t c s a p cu) := by
  refine ⟨?_, ?_, ?_⟩
  · apply trimStr_eq_self
    · unfold renderLine
      simp only [List.append_assoc, List.cons_append]
      exact noWSHead_append t _ (solidStr_ws t ht) rfl
    · rw [renderLine_assoc, List.reverse_append]
      apply noWSHead_append _ _ (fun x hx => solidStr_ws cu hcu x (List.mem_reverse.mp hx))
      rw [List.reverse_append, List.reverse_singleton, List.singleton_append]
      rfl
  · unfold renderLine
    intro hnil
    exact absurd (List.append_eq_nil.mp hnil).2 (by simp)
  · apply List.all_eq_true.mpr
    intro x hx
    have ht2 := nlFree_mem t (cleanStr_nlFree t (solidStr_cleanStr t ht))
    have hc2 := nlFree_mem c (cleanStr_nlFree c (solidStr_cleanStr c hc))
    have hs2 := nlFree_mem s (cleanStr_nlFree s hs)
    have ha2 := nlFree_mem a (cleanStr_nlFree a (solidStr_cleanStr a ha))
    have hp2 := nlFree_mem p (cleanStr_nlFree p (solidStr_cleanStr p hp))
    have hcu2 := nlFree_mem cu (cleanStr_nlFree cu (solidStr_cleanStr cu hcu))
    have hx2 : x ≠ '\n' := by
      unfold renderLine at hx
      rcases List.mem_append.mp hx with h1 | h1
      · rcases List.mem_append.mp h1 with h2 | h2
        · rcases List.mem_append.mp h2 with h3 | h3
          · rcases List.mem_append.mp h3 with h4 | h4
            · rcases List.mem_append.mp h4 with h5 | h5
              · exact ht2 x h5
              · rcases List.mem_cons.mp h5 with h6 | h6
                · subst h6; decide
                · exact hc2 x h6
            · rcases List.mem_cons.mp h4 with h6 | h6
              · subst h6; decide
              · exact hs2 x h6
          · rcases List.mem_cons.mp h3 with h6 | h6
            · subst h6; decide
            · exact ha2 x h6
        · rcases List.mem_cons.mp h2 with h6 | h6
          · subst h6; decide
          · exact hp2 x h6
      · rcases List.mem_cons.mp h1 with h6 | h6
        · subst h6; decide
        · exact hcu2 x h6
    simp [hx2]

theorem cleanStr_pipe (s : Str) (h : cleanStr s = true) : ∀ x ∈ s, x ≠ '|' :=
  fun c hc => (cleanStr_mem s h c hc).1

theorem chainWalk_single (H : Str → Str) (p b q : Str)
    (h : chainStep H p b = some q) : chainWalk H p [b] = some q := by
  show (match chainStep H p b with
        | some cu => chainWalk H cu []
        | none => none) = some q
  rw [h]
  rfl

theorem ledger_eta_init (l : LedgerSt) (h : l.initialized = true) :
    ({ l with initialized := true } : LedgerSt) = l := by
  cases l
  simp_all

theorem ledger_eta_cursor (l : LedgerSt) (h2 : l.initialized = true) :
    ({ l with lastHash := l.lastHash, initialized := true } : LedgerSt) = l := by
  cases l
  simp_all

/-- A ledger state satisfying the representation invariant passes
`verifyIntegrity` with no state change. -/
theorem LedgerRep_verify (H : Str → Str) (l : LedgerSt) (sys : SysState)
    (bodies : List Str) (hrep : LedgerRep H l bodies) :
    verifyIntegrity H l sys = (true, l, sys) := by
  obtain ⟨hinit, hsolid, hwalk, hgood, hdisk⟩ := hrep
  unfold verifyIntegrity verifyWalk
  rcases hdisk with ⟨hfile, hbodies⟩ | ⟨hfile, hmeta⟩
  · simp only [hfile]
    rw [ledger_eta_init l hinit]
  · simp only [hfile, hmeta]
    rw [parseLines_joinNL bodies hgood]
    simp only [hwalk]
    rw [ledger_eta_cursor l hinit]
    simp

/-- One clean append from a representable state: the exact result of
`append` and the new representation invariant. -/
theorem LedgerRep_append (H : Str → Str) (hH : solidHash H)
    (ts : Str) (e : Entry) (l : LedgerSt) (sys : SysState) (bodies : List Str)
    (hrep : LedgerRep H l bodies) (hts : solidStr ts = true) (he : cleanEntry e) :
    append H true ts e l sys =
      (some { timestamp := ts,
              currentHash := entryHash H ts e.citizenHash e.scheme (intStr e.amount) l.lastHash },
       postAppend H ts e bodies l.lastHash, sys) ∧
    LedgerRep H (postAppend H ts e bodies l.lastHash)
      (bodies ++ [appendLineOf H ts e l.lastHash]) := by
  obtain ⟨hinit, hsolid, hwalk, hgood, hdisk⟩ := hrep
  obtain ⟨heC, heS, heA⟩ := he
  have hGood : goodLine (appendLineOf H ts e l.lastHash) :=
    goodLine_renderLine ts e.citizenHash e.scheme (intStr e.amount) l.lastHash
      (entryHash H ts e.citizenHash e.scheme (intStr e.amount) l.lastHash)
      hts heC heS heA hsolid (hH _)
  constructor
  · unfold append
    rcases hdisk with ⟨hfile, hbodies⟩ | ⟨hfile, hmeta⟩
    · subst hbodies
      simp [hinit, hfile, postAppend, appendLineOf, joinNL]
    · simp [hinit, hfile, postAppend, appendLineOf, joinNL_snoc]
  · refine ⟨rfl, hH _, ?_, ?_, Or.inr ⟨rfl, rfl⟩⟩
    · rw [chainWalk_append, hwalk]
      show chainWalk H l.lastHash [appendLineOf H ts e l.lastHash] = _
      apply chainWalk_single
      unfold appendLineOf
      exact chainStep_renderLine H ts e.citizenHash e.scheme (intStr e.amount) l.lastHash
        (cleanStr_pipe ts (solidStr_cleanStr ts hts))
        (cleanStr_pipe _ (solidStr_cleanStr _ heC))
        (cleanStr_pipe _ heS)
        (cleanStr_pipe _ (solidStr_cleanStr _ heA))
        (cleanStr_pipe _ (solidStr_cleanStr _ hsolid))
        (cleanStr_pipe _ (solidStr_cleanStr _ (hH _)))
    · intro b hb
      rcases List.mem_append.mp hb with h | h
      · exact hgood b h
      · rcases List.mem_cons.mp h with h | h
        · subst h; exact hGood
        · simp at h

/-- A clean run of appends from a representable state: the system state is
untouched, the representation invariant extends by exactly the rendered
chain bodies, and the cursor ends at the chained hash. -/
theorem appendAll_rep (H : Str → Str) (hH : solidHash H) :
    ∀ (entries : List (Str × Entry)) (l : LedgerSt) (sys : SysState) (bodies : List Str),
      LedgerRep H l bodies →
      (∀ te ∈ entries, solidStr te.1 = true ∧ cleanEntry te.2) →
      (appendAll H entries l sys).2 = sys ∧
      LedgerRep H (appendAll H entries l sys).1
        (bodies ++ chainBodies H l.lastHash entries) ∧
      (appendAll H entries l sys).1.lastHash = chainLast H l.lastHash entries := by
  intro entries
  induction entries with
  | nil =>
    intro l sys bodies hrep hcl
    refine ⟨rfl, ?_, rfl⟩
    simpa [chainBodies] using hrep
  | cons te rest ih =>
    rcases te with ⟨ts, e⟩
    intro l sys bodies hrep hcl
    have hte := hcl (ts, e) (List.mem_cons_self _ _)
    obtain ⟨happ, hrep2⟩ := LedgerRep_append H hH ts e l sys bodies hrep hte.1 hte.2
    have hstep : appendAll H ((ts, e) :: rest) l sys =
        appendAll H rest (postAppend H ts e bodies l.lastHash) sys := by
      show appendAll H rest (append H true ts e l sys).2.1
          (append H true ts e l sys).2.2 = _
      rw [happ]
    rw [hstep]
    have ihh := ih (postAppend H ts e bodies l.lastHash) sys
      (bodies ++ [appendLineOf H ts e l.lastHash]) hrep2
      (fun te2 h => hcl te2 (List.mem_cons_of_mem _ h))
    refine ⟨ihh.1, ?_, ?_⟩
    · have h2 : (bodies ++ [appendLineOf H ts e l.lastHash]) ++
          chainBodies H (postAppend H ts e bodies l.lastHash).lastHash rest =
          bodies ++ chainBodies H l.lastHash ((ts, e) :: rest) := by
        simp [chainBodies, appendLineOf, postAppend]
      rw [h2] at ihh
      exact ihh.2.1
    · have h3 : chainLast H (postAppend H ts e bodies l.lastHash).lastHash rest =
          chainLast H l.lastHash ((ts, e) :: rest) := by
        simp [chainLast, postAppend]
      rw [h3] at ihh
      exact ihh.2.2

/-- The invariant holds for the just-initialised empty module state. -/
theorem initRep (H : Str → Str) :
    LedgerRep H { initLedger with initialized := true } [] := by
  refine ⟨rfl, by decide, rfl, ?_, Or.inl ⟨rfl, rfl⟩⟩
  intro b hb
  simp at hb

/-- A chain-valid state as seen at a fresh process start — same disk, but
the cursor back at genesis and the module uninitialised — passes
`verifyIntegrity`, which rebuilds exactly the representable state. -/
theorem verify_fresh (H : Str → Str) (l1 : LedgerSt) (bodies : List Str)
    (sys : SysState) (hrep : LedgerRep H l1 bodies) :
    verifyIntegrity H { l1 with lastHash := GENESIS, initialized := false } sys =
      (true, l1, sys) := by
  obtain ⟨hinit, hsolid, hwalk, hgood, hdisk⟩ := hrep
  unfold verifyIntegrity verifyWalk
  rcases hdisk with ⟨hfile, hbodies⟩ | ⟨hfile, hmeta⟩
  · subst hbodies
    have hg : l1.lastHash = GENESIS := by
      injection hwalk with h
      exact h.symm
    simp only [hfile]
    cases l1
    simp_all
  · simp only [hfile, hmeta]
    rw [parseLines_joinNL bodies hgood]
    simp only [hwalk]
    cases l1
    simp_all

/-- The first append from a fresh chain-valid state self-initialises
through its internal verification and then behaves exactly as from the
verified state. -/
theorem append_fresh_bridge (H : Str → Str) (writeOk : Bool) (ts : Str)
    (e : Entry) (l1 : LedgerSt) (bodies : List Str) (sys : SysState)
    (hrep : LedgerRep H l1 bodies) :
    append H writeOk ts e { l1 with lastHash := GENESIS, initialized := false } sys =
      append H writeOk ts e l1 sys := by
  have hv := verify_fresh H l1 bodies sys hrep
  unfold append
  simp [hv, hrep.1]

/-- A clean run of appends from a representable (chain-valid, verified)
state: verification succeeds before and after, the system state is
untouched, the new chain parses and walks, and the file is the previous
bodies followed by the rendered chain of the new entries. -/
theorem appendAll_rep_full (H : Str → Str) (entries : List (Str × Entry))
    (l : LedgerSt) (sys : SysState) (bodies : List Str)
    (hH : solidHash H)
    (hent : ∀ te ∈ entries, solidStr te.1 = true ∧ cleanEntry te.2)
    (hrep : LedgerRep H l bodies) :
    (verifyIntegrity H l sys).1 = true ∧
    (appendAll H entries l sys).2 = sys ∧
    (verifyIntegrity H (appendAll H entries l sys).1 sys).1 = true ∧
    parseLines (joinNL (bodies ++ chainBodies H l.lastHash entries)) =
      bodies ++ chainBodies H l.lastHash entries ∧
    chainWalk H GENESIS (bodies ++ chainBodies H l.lastHash entries) =
      some (chainLast H l.lastHash entries) ∧
    (bodies ++ chainBodies H l.lastHash entries ≠ [] →
      (appendAll H entries l sys).1.disk.file =
        some (joinNL (bodies ++ chainBodies H l.lastHash entries))) := by
  obtain ⟨hsys, hrepF, hlast⟩ := appendAll_rep H hH entries l sys bodies hrep hent
  obtain ⟨hinit2, hsolid2, hwalk2, hgood2, hdisk2⟩ := hrepF
  refine ⟨?_, hsys, ?_, ?_, ?_, ?_⟩
  · rw [LedgerRep_verify H l sys bodies hrep]
  · rw [LedgerRep_verify H _ sys _ ⟨hinit2, hsolid2, hwalk2, hgood2, hdisk2⟩]
  · exact parseLines_joinNL _ hgood2
  · rw [hlast] at hwalk2
    exact hwalk2
  · intro hne
    rcases hdisk2 with ⟨hfile, hbod⟩ | ⟨hfile, hmeta⟩
    · exact absurd hbod hne
    · exact hfile

/-- C4 (amended): for every run of appends whose entry fields are free of
the field separator and newline (and edge whitespace; digest outputs
hex-like), starting from an empty ledger or from a chain-valid ledger in
its append-reachable form — newline-terminated trim-invariant lines whose
chain walks from genesis to the cursor and whose stored digest matches —
whether already verified (`l = l1`) or at a fresh boot with the cursor
still genesis (`Or.inr`; the empty start is the `Or.inr` instance at the
just-initialised empty state): `verifyIntegrity` succeeds before and after
the run, the system state is untouched, and the persisted file is the
previous bodies followed by the rendered chain of the new entries, in
which — by construction of `chainBodies` — every line's
`previousEntryHash` is the running hash (the start cursor, genesis on the
empty start) and its `currentEntryHash` the digest of its own fields and
declared previous hash; the chain walk of that file parses and succeeds. -/
theorem C4_clean_appends_keep_integrity (H : Str → Str)
    (entries : List (Str × Entry)) (sys : SysState)
    (l l1 : LedgerSt) (bodies : List Str)
    (hH : solidHash H)
    (hent : ∀ te ∈ entries, solidStr te.1 = true ∧ cleanEntry te.2)
    (hrep : LedgerRep H l1 bodies)
    (hstart : l = l1 ∨ l = { l1 with lastHash := GENESIS, initialized := false }) :
    (verifyIntegrity H l sys).1 = true ∧
    (appendAll H entries l sys).2 = sys ∧
    (verifyIntegrity H (appendAll H entries l sys).1 sys).1 = true ∧
    parseLines (joinNL (bodies ++ chainBodies H l1.lastHash entries)) =
      bodies ++ chainBodies H l1.lastHash entries ∧
    chainWalk H GENESIS (bodies ++ chainBodies H l1.lastHash entries) =
      some (chainLast H l1.lastHash entries) ∧
    (bodies ++ chainBodies H l1.lastHash entries ≠ [] →
      (appendAll H entries l sys).1.disk.file =
        some (joinNL (bodies ++ chainBodies H l1.lastHash entries))) := by
  rcases hstart with rfl | rfl
  · exact appendAll_rep_full H entries l sys bodies hH hent hrep
  · cases entries with
    | nil =>
      refine ⟨?_, rfl, ?_, ?_, ?_, ?_⟩
      · rw [verify_fresh H l1 bodies sys hrep]
      · show (verifyIntegrity H
            { l1 with lastHash := GENESIS, initialized := false } sys).1 = true
        rw [verify_fresh H l1 bodies sys hrep]
      · simpa [chainBodies] using parseLines_joinNL bodies hrep.2.2.2.1
      · simpa [chainBodies] using hrep.2.2.1
      · intro hne
        show ({ l1 with lastHash := GENESIS, initialized := false } : LedgerSt).disk.file = _
        rcases hrep.2.2.2.2 with ⟨hfile, hbod⟩ | ⟨hfile, hmeta⟩
        · exact absurd (by simp [hbod, chainBodies]) hne
        · show l1.disk.file = _
          rw [hfile]
          simp [chainBodies]
    | cons te rest =>
      rcases te with ⟨ts, e⟩
      obtain ⟨g1, g2, g3, g4, g5, g6⟩ :=
        appendAll_rep_full H ((ts, e) :: rest) l1 sys bodies hH hent hrep
      have hb2 : appendAll H ((ts, e) :: rest)
          { l1 with lastHash := GENESIS, initialized := false } sys =
          appendAll H ((ts, e) :: rest) l1 sys := by
        show appendAll H rest
            (append H true ts e { l1 with lastHash := GENESIS, initialized := false } sys).2.1
            (append H true ts e { l1 with lastHash := GENESIS, initialized := false } sys).2.2 = _
        rw [append_fresh_bridge H true ts e l1 bodies sys hrep]
        rfl
      refine ⟨?_, ?_, ?_, g4, g5, ?_⟩
      · rw [verify_fresh H l1 bodies sys hrep]
      · rw [hb2]
        exact g2
      · rw [hb2]
        exact g3
      · intro hne
        rw [hb2]
        exact g6 hne

set_option maxRecDepth 8000 in
/-- C4 counterexamples, both with no external edits in between: (1) one
append whose scheme field contains the `|` separator, from the empty
ledger, makes the subsequent `verifyIntegrity` return false and freeze;
(2) one clean append onto a chain-valid ledger (accepted by
`verifyIntegrity` beforehand) whose file lacks the trailing newline merges
the two lines, and the subsequent `verifyIntegrity` returns false and
freezes.  The unqualified claim over every append sequence from an empty
or chain-valid ledger therefore fails, forcing both amendments. -/
theorem C4_counterexample_dirty_field_or_unterminated_start :
    ((verifyIntegrity hashTag (appendAll hashTag [(ts1, entryPipe)] initLedger sys0).1 sys0).1 = false ∧
     (verifyIntegrity hashTag (appendAll hashTag [(ts1, entryPipe)] initLedger sys0).1 sys0).2.2.status = .frozen) ∧
    ((verifyIntegrity hashTag chainValidNoNL sys0).1 = true ∧
     (verifyIntegrity hashTag (appendAll hashTag [(ts1, entry0)] chainValidNoNL sys0).1 sys0).1 = false ∧
     (verifyIntegrity hashTag (appendAll hashTag [(ts1, entry0)] chainValidNoNL sys0).1 sys0).2.2.status = .frozen) := by
  exact ⟨⟨by decide, by decide⟩, by decide, by decide, by decide⟩

/-- Witness for C4 with a concrete hex-like digest stand-in and one clean
entry from the empty start. -/
theorem C4_clean_appends_keep_integrity_witness :
    (verifyIntegrity hashConst initLedger sys0).1 = true ∧
    (appendAll hashConst [(ts1, entry0)] initLedger sys0).2 = sys0 ∧
    (verifyIntegrity hashConst (appendAll hashConst [(ts1, entry0)] initLedger sys0).1 sys0).1 = true ∧
    parseLines (joinNL ([] ++ chainBodies hashConst GENESIS [(ts1, entry0)])) =
      [] ++ chainBodies hashConst GENESIS [(ts1, entry0)] ∧
    chainWalk hashConst GENESIS ([] ++ chainBodies hashConst GENESIS [(ts1, entry0)]) =
      some (chainLast hashConst GENESIS [(ts1, entry0)]) ∧
    (([] : List Str) ++ chainBodies hashConst GENESIS [(ts1, entry0)] ≠ [] →
      (appendAll hashConst [(ts1, entry0)] initLedger sys0).1.disk.file =
        some (joinNL ([] ++ chainBodies hashConst GENESIS [(ts1, entry0)]))) :=
  C4_clean_appends_keep_integrity hashConst [(ts1, entry0)] sys0 initLedger
    { initLedger with initialized := true } []
    (fun s => by
      show solidStr (['h'] : Str) = true
      decide)
    (fun te hte => by
      rw [List.mem_singleton] at hte
      subst hte
      exact ⟨by decide, by decide, by decide, by decide⟩)
    (initRep hashConst)
    (Or.inr rfl)

/-! ## C9 — the outbound decision and identity data -/

/-- A successful `append` echoes back exactly the timestamp it was given. -/
theorem append_timestamp (H : Str → Str) (writeOk : Bool) (ts : Str)
    (e : Entry) (l : LedgerSt) (sys : SysState) (res : AppendRes)
    (l2 : LedgerSt) (sys2 : SysState)
    (h : append H writeOk ts e l sys = (some res, l2, sys2)) :
    res.timestamp = ts := by
  cases writeOk
  · unfold append at h
    simp at h
  · obtain ⟨res2, l3, sys3, happ, hts, -, -, -⟩ := append_writeOk_shape H ts e l sys
    rw [happ] at h
    injection h with h1 h2
    injection h1 with h3
    rw [← h3]
    exact hts

/-- C9 counterexamples: (1) submitting the raw identity string itself as
the scheme makes the Eligibility mismatch reason echo it back; (2) a
registry record whose claim counter is the 12-digit identity read as a
number makes the claim-limit reason render the raw identity verbatim.  In
both cases the decision object embeds the raw identity, so the
unconditional claim fails. -/
theorem C9_counterexample_decision_echoes_identity :
    ((validate hashTag lookup0 0 ts1 true cid0 cid0 w0).1 =
      some (rejected .Eligibility (.schemeMismatch foodStr cid0)) ∧
     cid0 ∈ decisionStrings (rejected .Eligibility (.schemeMismatch foodStr cid0)) ∧
     occursIn cid0 cid0 = true) ∧
    ((validate hashTag lookupBig 0 ts1 true cid0 foodStr w0).1 =
      some (rejected .Eligibility (.claimLimit 123456789012)) ∧
     intStr 123456789012 = cid0 ∧
     cid0 ∈ decisionStrings (rejected .Eligibility (.claimLimit 123456789012))) := by
  exact ⟨⟨by decide, by decide, by decide⟩, by decide, by decide, by decide⟩

/-- C9 (amended): the decision object's fields are limited to `approved`,
`gate`, `reason` and (on approval) `amount`, `scheme`, `timestamp` — by the
shape of `Decision` — and none of its rendered components (reason
interpolations, echoed scheme, amount rendering, timestamp) embeds the raw
identity or the IdentityToken, provided the values the templates
interpolate do not themselves embed them: the caller-supplied scheme, the
clock string, the looked-up registry record's textual fields, the decimal
renderings of its claim counter and scheme amount, the grouped rendering
of the remaining budget, and the day counts derived from its last-claim
date.  The validator itself never interpolates the identity or the token
into any decision field. -/
theorem C9_decision_strings_no_identity (H : Str → Str)
    (lookup : Str → Option Record) (now : Int) (nowStr : Str) (writeOk : Bool)
    (citizenId scheme : Str) (w : World)
    (hs1 : occursIn citizenId scheme = false)
    (hs2 : occursIn (hashCitizenId H citizenId) scheme = false)
    (ht1 : occursIn citizenId nowStr = false)
    (ht2 : occursIn (hashCitizenId H citizenId) nowStr = false)
    (hb1 : occursIn citizenId (inrStr w.sys.budget) = false)
    (hb2 : occursIn (hashCitizenId H citizenId) (inrStr w.sys.budget) = false)
    (hr : ∀ r, lookup (hashCitizenId H citizenId) = some r →
      occursIn citizenId r.account_status = false ∧
      occursIn (hashCitizenId H citizenId) r.account_status = false ∧
      occursIn citizenId r.scheme_eligibility = false ∧
      occursIn (hashCitizenId H citizenId) r.scheme_eligibility = false ∧
      occursIn citizenId (intStr r.claim_count) = false ∧
      occursIn (hashCitizenId H citizenId) (intStr r.claim_count) = false ∧
      occursIn citizenId (inrStr r.scheme_amount) = false ∧
      occursIn (hashCitizenId H citizenId) (inrStr r.scheme_amount) = false ∧
      occursIn citizenId (intStr r.scheme_amount) = false ∧
      occursIn (hashCitizenId H citizenId) (intStr r.scheme_amount) = false)
    (hdy : ∀ r d2, lookup (hashCitizenId H citizenId) = some r →
      r.last_claim_date = some d2 →
      occursIn citizenId (intStr (Int.fdiv (now - d2) MS_PER_DAY)) = false ∧
      occursIn (hashCitizenId H citizenId) (intStr (Int.fdiv (now - d2) MS_PER_DAY)) = false ∧
      occursIn citizenId (intStr (-(Int.fdiv ((now - d2) - 30 * MS_PER_DAY) MS_PER_DAY))) = false ∧
      occursIn (hashCitizenId H citizenId) (intStr (-(Int.fdiv ((now - d2) - 30 * MS_PER_DAY) MS_PER_DAY))) = false) :
    ∀ d, (validate H lookup now nowStr writeOk citizenId scheme w).1 = some d →
      ∀ s ∈ decisionStrings d,
        occursIn citizenId s = false ∧
        occursIn (hashCitizenId H citizenId) s = false := by
  intro d hd s hs
  rcases hstat : w.sys.status with _ | _ | _
  rotate_left
  · -- paused
    rw [show (validate H lookup now nowStr writeOk citizenId scheme w).1 =
        some (rejected .System .systemPaused) from by
      unfold validate; simp [hstat]] at hd
    injection hd with hd2
    subst hd2
    simp [decisionStrings, reasonStrings, rejected] at hs
  · -- frozen
    rw [show (validate H lookup now nowStr writeOk citizenId scheme w).1 =
        some (rejected .System .systemFrozen) from by
      unfold validate; simp [hstat]] at hd
    injection hd with hd2
    subst hd2
    simp [decisionStrings, reasonStrings, rejected] at hs
  · -- active
    by_cases hmem : hashCitizenId H citizenId ∈ w.replay
    · rw [show (validate H lookup now nowStr writeOk citizenId scheme w).1 =
          some (rejected .Replay .duplicate) from by
        unfold validate; simp [hstat, hmem]] at hd
      injection hd with hd2
      subst hd2
      simp [decisionStrings, reasonStrings, rejected] at hs
    · rcases hrec : lookup (hashCitizenId H citizenId) with _ | record
      · rw [show (validate H lookup now nowStr writeOk citizenId scheme w).1 =
            some (rejected .Eligibility .notFound) from by
          unfold validate; simp [hstat, hmem, hrec]] at hd
        injection hd with hd2
        subst hd2
        simp [decisionStrings, reasonStrings, rejected] at hs
      · obtain ⟨hr1, hr2, hr3, hr4, hr5, hr6, hr7, hr8, hr9, hr10⟩ := hr record hrec
        by_cases hst : lowerStr record.account_status = ("active".data)
        case neg =>
          rw [show (validate H lookup now nowStr writeOk citizenId scheme w).1 =
              some (rejected .Eligibility (.notActive record.account_status)) from by
            unfold validate; simp [hstat, hmem, hrec, hst]] at hd
          injection hd with hd2
          subst hd2
          simp [decisionStrings, reasonStrings, rejected] at hs
          subst hs
          exact ⟨hr1, hr2⟩
        case pos =>
        rcases haad : record.aadhaar_linked with _ | _
        · rw [show (validate H lookup now nowStr writeOk citizenId scheme w).1 =
              some (rejected .Eligibility .aadhaarNotLinked) from by
            unfold validate; simp [hstat, hmem, hrec, hst, haad]] at hd
          injection hd with hd2
          subst hd2
          simp [decisionStrings, reasonStrings, rejected] at hs
        · by_cases hsch : lowerStr record.scheme_eligibility = lowerStr (trimStr scheme)
          case neg =>
            rw [show (validate H lookup now nowStr writeOk citizenId scheme w).1 =
                some (rejected .Eligibility
                  (.schemeMismatch record.scheme_eligibility scheme)) from by
              unfold validate; simp [hstat, hmem, hrec, hst, haad, hsch]] at hd
            injection hd with hd2
            subst hd2
            simp [decisionStrings, reasonStrings, rejected] at hs
            rcases hs with hs | hs
            · subst hs
              exact ⟨hr3, hr4⟩
            · subst hs
              exact ⟨hs1, hs2⟩
          case pos =>
          by_cases hcc : record.claim_count > 3
          · rw [show (validate H lookup now nowStr writeOk citizenId scheme w).1 =
                some (rejected .Eligibility (.claimLimit record.claim_count)) from by
              unfold validate; simp [hstat, hmem, hrec, hst, haad, hsch, hcc]] at hd
            injection hd with hd2
            subst hd2
            simp [decisionStrings, reasonStrings, rejected] at hs
            subst hs
            exact ⟨hr5, hr6⟩
          · by_cases hbud : w.sys.budget ≤ 0
            · rw [show (validate H lookup now nowStr writeOk citizenId scheme w).1 =
                  some (rejected .Budget .budgetExhausted) from by
                unfold validate; simp [hstat, hmem, hrec, hst, haad, hsch, hcc, hbud]] at hd
              injection hd with hd2
              subst hd2
              simp [decisionStrings, reasonStrings, rejected] at hs
            · by_cases hbud2 : w.sys.budget < record.scheme_amount
              · rw [show (validate H lookup now nowStr writeOk citizenId scheme w).1 =
                    some (rejected .Budget
                      (.insufficientBudget w.sys.budget record.scheme_amount)) from by
                  unfold validate
                  simp [hstat, hmem, hrec, hst, haad, hsch, hcc, hbud, hbud2]] at hd
                injection hd with hd2
                subst hd2
                simp [decisionStrings, reasonStrings, rejected] at hs
                rcases hs with hs | hs
                · subst hs
                  exact ⟨hb1, hb2⟩
                · subst hs
                  exact ⟨hr7, hr8⟩
              · -- gates 1-4 pass; gate 5 and the approval path
                rcases happ : append H writeOk nowStr
                    { citizenHash := hashCitizenId H citizenId, scheme := scheme,
                      amount := record.scheme_amount }
                    w.ledger (incrTx (deduct record.scheme_amount w.sys)) with ⟨o, l2, sys2⟩
                rcases hld : record.last_claim_date with _ | d2
                · rcases o with _ | res
                  · rw [show (validate H lookup now nowStr writeOk citizenId scheme w).1 =
                        none from by
                      unfold validate
                      simp [hstat, hmem, hrec, hst, haad, hsch, hcc, hbud, hbud2, hld, happ]] at hd
                    simp at hd
                  · rw [show (validate H lookup now nowStr writeOk citizenId scheme w).1 =
                        some { approved := true, gate := .Approved, reason := .approvedOk,
                               amount := some record.scheme_amount, scheme := some scheme,
                               timestamp := some res.timestamp } from by
                      unfold validate
                      simp [hstat, hmem, hrec, hst, haad, hsch, hcc, hbud, hbud2, hld, happ]] at hd
                    injection hd with hd2
                    subst hd2
                    simp [decisionStrings, reasonStrings] at hs
                    have hts3 := append_timestamp _ _ _ _ _ _ _ _ _ happ
                    rcases hs with hs | hs | hs
                    · subst hs
                      exact ⟨hr9, hr10⟩
                    · subst hs
                      exact ⟨hs1, hs2⟩
                    · subst hs
                      rw [hts3]
                      exact ⟨ht1, ht2⟩
                · obtain ⟨hd1, hd2b, hd3, hd4⟩ := hdy record d2 hrec hld
                  by_cases hfr : now - d2 < 30 * MS_PER_DAY
                  · rw [show (validate H lookup now nowStr writeOk citizenId scheme w).1 =
                        some (rejected .Frequency
                          (.frequencyViolation (Int.fdiv (now - d2) MS_PER_DAY)
                            (-(Int.fdiv ((now - d2) - 30 * MS_PER_DAY) MS_PER_DAY)))) from by
                      unfold validate
                      simp [hstat, hmem, hrec, hst, haad, hsch, hcc, hbud, hbud2, hld, hfr]] at hd
                    injection hd with hd2
                    subst hd2
                    simp [decisionStrings, reasonStrings, rejected] at hs
                    rcases hs with hs | hs
                    · subst hs
                      exact ⟨hd1, hd2b⟩
                    · subst hs
                      exact ⟨hd3, hd4⟩
                  · rcases o with _ | res
                    · rw [show (validate H lookup now nowStr writeOk citizenId scheme w).1 =
                          none from by
                        unfold validate
                        simp [hstat, hmem, hrec, hst, haad, hsch, hcc, hbud, hbud2, hld, hfr, happ]] at hd
                      simp at hd
                    · rw [show (validate H lookup now nowStr writeOk citizenId scheme w).1 =
                          some { approved := true, gate := .Approved, reason := .approvedOk,
                                 amount := some record.scheme_amount, scheme := some scheme,
                                 timestamp := some res.timestamp } from by
                        unfold validate
                        simp [hstat, hmem, hrec, hst, haad, hsch, hcc, hbud, hbud2, hld, hfr, happ]] at hd
                      injection hd with hd2
                      subst hd2
                      simp [decisionStrings, reasonStrings] at hs
                      have hts3 := append_timestamp _ _ _ _ _ _ _ _ _ happ
                      rcases hs with hs | hs | hs
                      · subst hs
                        exact ⟨hr9, hr10⟩
                      · subst hs
                        exact ⟨hs1, hs2⟩
                      · subst hs
                        rw [hts3]
                        exact ⟨ht1, ht2⟩

/-- Witness for C9 at a concrete world, eligible claim, the approval
decision it concretely returns, and its echoed scheme string. -/
theorem C9_decision_strings_no_identity_witness :
    occursIn cid0 foodStr = false ∧ occursIn tok0 foodStr = false :=
  C9_decision_strings_no_identity hashTag lookup0 0 ts1 true cid0 foodStr w0
    (by decide) (by decide) (by decide) (by decide) (by decide) (by decide)
    (fun r hrec => by
      have h0 : some rec0 = some r := by
        rw [← hrec]
        decide
      injection h0 with h1
      subst h1
      exact ⟨by decide, by decide, by decide, by decide, by decide,
        by decide, by decide, by decide, by decide, by decide⟩)
    (fun r d2 hrec hld => by
      have h0 : some rec0 = some r := by
        rw [← hrec]
        decide
      injection h0 with h1
      subst h1
      simp [rec0] at hld)
    { approved := true, gate := .Approved, reason := .approvedOk,
      amount := some 5000, scheme := some foodStr, timestamp := some ts1 }
    (by decide) foodStr (by decide)

end JanDhan
